import Mathlib

/-!
Verification of the witness management and signal-override subsystem of the
zkit toolkit.  The definitions below are shallow embeddings of the TypeScript
sources: `src/utils/witness-utils.ts` (symbol-table streaming, override
validation, witness array modification, witness file codec) and the
`CircuitZKit` class (witness file paths, reset, proof-generation file flow).

Machine integers: JS `bigint` values are modelled as `Int` (or `Nat` where the
source guarantees non-negativity), byte buffers as `List Nat` with each entry a
byte value.  Fallible JS operations (`BigInt(string)` throwing a SyntaxError,
`readBinFile` on a malformed container) are modelled with `Option`/`Except`.
File-system state is passed explicitly: a file's content is a `List Nat`, a
directory is an association list from path to content, and `os.tmpdir()` is a
parameter.
-/

/-! ## Little-endian byte encoding

`@iden3/binfileutils.writeBigInt(fd, v, n8)` writes the `n8`-byte little-endian
encoding of `v`, silently dropping higher bits; `fd.writeULE32` is the 4-byte
case (DataView semantics: the value is taken mod 2^32, which the recursion
below performs implicitly by dropping high bytes). -/

/-- The `n`-byte little-endian encoding of `e`, high bits beyond `n` bytes dropped. -/
def leBytes : Nat → Nat → List Nat
  | 0, _ => []
  | n + 1, e => e % 256 :: leBytes n (e / 256)

/-- Decode a little-endian byte list back to a natural number. -/
def fromLEBytes : List Nat → Nat
  | [] => 0
  | b :: bs => b + 256 * fromLEBytes bs

/-! ## The `.wtns` binary container

Layout produced by `binFileUtils.createBinFile(path, "wtns", 2, 2)` followed by
the two sections written in `writeWitnessFile`: magic `"wtns"`, ULE32 version,
ULE32 section count, then for each section a ULE32 id and ULE64 byte length
followed by the section content.  Section 1 holds ULE32 `n8`, the prime in `n8`
bytes, and the ULE32 element count; section 2 holds the elements, `n8` bytes
each. -/

/-- The 4 magic bytes `"wtns"`. -/
def wtnsMagic : List Nat := [0x77, 0x74, 0x6e, 0x73]

/-- Number of binary digits of `n`, with structural fuel recursion (`fuel ≥ n`
suffices); `bitLenAux 0 _ = 0` only on exhausted fuel, never reached from
`bitLength`. -/
def bitLenAux : Nat → Nat → Nat
  | 0, _ => 0
  | fuel + 1, n => if n = 0 then 0 else bitLenAux fuel (n / 2) + 1

/-- `Scalar.bitLength`: the number of binary digits of a non-negative bigint. -/
def bitLength (n : Nat) : Nat := bitLenAux n n

/-- Field-element byte width chosen by `writeWitnessFile`:
`(Math.floor((Scalar.bitLength(prime) - 1) / 64) + 1) * 8`, meaningful for the
positive primes the container carries. -/
def witnessN8 (prime : Nat) : Nat := ((bitLength prime - 1) / 64 + 1) * 8

/-- Content of the `.wtns` file produced by `writeWitnessFile(witnessPath,
witness, prime)` (the revision carrying an explicit `prime` parameter); the
path argument is dropped since this is the pure content. -/
def writeWitnessFile (witness : List Nat) (prime : Nat) : List Nat :=
  let n8 := witnessN8 prime
  wtnsMagic ++ leBytes 4 2 ++ leBytes 4 2 ++
    leBytes 4 1 ++ leBytes 8 (8 + n8) ++
    leBytes 4 n8 ++ leBytes n8 prime ++ leBytes 4 witness.length ++
    leBytes 4 2 ++ leBytes 8 (witness.length * n8) ++
    witness.flatMap (leBytes n8)

/-- Split off the first `n` bytes of a buffer; `none` models the read failing
past the end of the file. -/
def readBytesPart (n : Nat) (bs : List Nat) : Option (List Nat × List Nat) :=
  if n ≤ bs.length then some (bs.take n, bs.drop n) else none

/-- Read an `n`-byte little-endian unsigned integer (`readULE32`, `readULE64`,
`readBigInt`). -/
def readULE (n : Nat) (bs : List Nat) : Option (Nat × List Nat) :=
  (readBytesPart n bs).map (fun p => (fromLEBytes p.1, p.2))

/-- Decode `count` consecutive `n8`-byte little-endian field elements. -/
def decodeChunks (n8 : Nat) : Nat → List Nat → List Nat
  | 0, _ => []
  | count + 1, body => fromLEBytes (body.take n8) :: decodeChunks n8 count (body.drop n8)

/-- Modelled from the spec: the Codec's `readVector` (delegated by the
repository to the external proving library's witness export, which is not part
of this repository) parses the container of §6 bit-exactly: magic `"wtns"`,
version at most 2, section table, header section with `n8`, prime and count
(whose length must be `8 + n8`), and the body section whose length must be
`count * n8`. -/
def readVector (bytes : List Nat) : Option (List Nat) :=
  (readBytesPart 4 bytes).bind fun magicR =>
  if magicR.1 ≠ wtnsMagic then none else
  (readULE 4 magicR.2).bind fun versionR =>
  if 2 < versionR.1 then none else
  (readULE 4 versionR.2).bind fun nSectionsR =>
  (readULE 4 nSectionsR.2).bind fun secId1R =>
  if secId1R.1 ≠ 1 then none else
  (readULE 8 secId1R.2).bind fun len1R =>
  (readULE 4 len1R.2).bind fun n8R =>
  (readBytesPart n8R.1 n8R.2).bind fun primeR =>
  (readULE 4 primeR.2).bind fun countR =>
  if len1R.1 ≠ 8 + n8R.1 then none else
  (readULE 4 countR.2).bind fun secId2R =>
  if secId2R.1 ≠ 2 then none else
  (readULE 8 secId2R.2).bind fun len2R =>
  if len2R.1 ≠ countR.1 * n8R.1 then none else
  (readBytesPart (countR.1 * n8R.1) len2R.2).bind fun bodyR =>
  some (decodeChunks n8R.1 countR.1 bodyR.1)

/-- `getWitnessPrime(wtnsPath)`: opens the container (`readBinFile` with the
same magic/version/section checks), reads `n8` and the prime from section 1,
reads the trailing count word, and checks the section-1 length on
`endReadSection`; the body section is scanned but not decoded. -/
def getWitnessPrime (bytes : List Nat) : Option Nat :=
  (readBytesPart 4 bytes).bind fun magicR =>
  if magicR.1 ≠ wtnsMagic then none else
  (readULE 4 magicR.2).bind fun versionR =>
  if 2 < versionR.1 then none else
  (readULE 4 versionR.2).bind fun nSectionsR =>
  (readULE 4 nSectionsR.2).bind fun secId1R =>
  if secId1R.1 ≠ 1 then none else
  (readULE 8 secId1R.2).bind fun len1R =>
  (readULE 4 len1R.2).bind fun n8R =>
  (readBytesPart n8R.1 n8R.2).bind fun primeR =>
  (readULE 4 primeR.2).bind fun countR =>
  if len1R.1 ≠ 8 + n8R.1 then none else
  (readULE 4 countR.2).bind fun secId2R =>
  if secId2R.1 ≠ 2 then none else
  (readULE 8 secId2R.2).bind fun len2R =>
  (readBytesPart len2R.1 len2R.2).bind fun _bodyR =>
  some (fromLEBytes primeR.1)

/-- The current `writeWitnessFile(witnessPath, witness)` (no prime parameter):
it first reads the prime back from the `.wtns` file already present at
`witnessPath` via `getWitnessPrime`, then rewrites that same file.  The
argument `existing` is the content currently at the path (`none`: no file, in
which case `readBinFile` throws). -/
def writeWitnessFileCurrent (existing : Option (List Nat)) (witness : List Nat) :
    Option (List Nat) :=
  match existing with
  | none => none
  | some bytes =>
    match getWitnessPrime bytes with
    | none => none
    | some prime => some (writeWitnessFile witness prime)

/-! ## JS string utilities used by the symbol-table reader -/

/-- Whitespace stripped by JS `StringToBigInt` before parsing. -/
def isJsWhitespace (c : Char) : Bool :=
  c = ' ' || c = '\t' || c = '\n' || c = '\r' || c = '\x0b' || c = '\x0c'

/-- Strip leading and trailing whitespace. -/
def trimJs (cs : List Char) : List Char :=
  ((cs.dropWhile isJsWhitespace).reverse.dropWhile isJsWhitespace).reverse

/-- JS `string.split(",")` on the underlying character list: `""` yields one
empty field, and each comma starts a new field. -/
def splitCommaChars : List Char → List (List Char)
  | [] => [[]]
  | c :: cs =>
    if c = ',' then [] :: splitCommaChars cs
    else
      match splitCommaChars cs with
      | [] => [[c]]
      | g :: gs => (c :: g) :: gs

/-- JS `line.split(",")`. -/
def jsSplitComma (s : String) : List String :=
  (splitCommaChars s.data).map List.asString

/-- Value of a digit character in the given base, `none` if it is not a valid
digit for that base. -/
def digitVal? (base : Nat) (c : Char) : Option Nat :=
  let v :=
    if '0' ≤ c && c ≤ '9' then some (c.toNat - '0'.toNat)
    else if 'a' ≤ c && c ≤ 'z' then some (c.toNat - 'a'.toNat + 10)
    else if 'A' ≤ c && c ≤ 'Z' then some (c.toNat - 'A'.toNat + 10)
    else none
  match v with
  | some d => if d < base then some d else none
  | none => none

/-- Parse a non-empty digit string in the given base. -/
def digitsVal? (base : Nat) (cs : List Char) : Option Nat :=
  if cs.isEmpty then none
  else cs.foldl (fun acc c => acc.bind (fun a => (digitVal? base c).map (fun d => a * base + d))) (some 0)

/-- JS `BigInt(string)` (the `StringToBigInt` conversion): trims whitespace,
maps the empty string to `0`, accepts an optional sign followed by decimal
digits or a `0x`/`0o`/`0b` radix prefix, and throws a SyntaxError (modelled as
`none`) on anything else. -/
def jsStringToBigInt (s : String) : Option Int :=
  match trimJs s.data with
  | [] => some 0
  | '-' :: ds => (digitsVal? 10 ds).map (fun n => -(n : Int))
  | '+' :: ds => (digitsVal? 10 ds).map (fun n => (n : Int))
  | '0' :: 'x' :: ds => (digitsVal? 16 ds).map (fun n => (n : Int))
  | '0' :: 'X' :: ds => (digitsVal? 16 ds).map (fun n => (n : Int))
  | '0' :: 'o' :: ds => (digitsVal? 8 ds).map (fun n => (n : Int))
  | '0' :: 'O' :: ds => (digitsVal? 8 ds).map (fun n => (n : Int))
  | '0' :: 'b' :: ds => (digitsVal? 2 ds).map (fun n => (n : Int))
  | '0' :: 'B' :: ds => (digitsVal? 2 ds).map (fun n => (n : Int))
  | ds => (digitsVal? 10 ds).map (fun n => (n : Int))

/-! ## Symbol-table reader and override validation -/

/-- One parsed line of the `.sym` file (`SignalInfo` in `types.ts`). -/
structure SignalInfo where
  id : Int
  witnessIndex : Int
  componentId : Int
  signalName : String
  deriving DecidableEq, Repr

/-- Outcome of processing one symbol-table line inside `iterateSymFile`:
skipped (field count differs from 4), a thrown `BigInt` conversion error, or a
parsed entry. -/
inductive SymLineResult where
  | skip
  | fail
  | entry (info : SignalInfo)
  deriving DecidableEq, Repr

/-- Errors surfaced by the override validation pipeline. -/
inductive SymError where
  | convertError
  | signalsNotFound (msg : String)
  deriving DecidableEq, Repr

/-- Processing of one line in `iterateSymFile`: split on commas, skip the line
unless it has exactly 4 fields, otherwise convert the three numeric fields with
`BigInt` (any conversion failure throws). -/
def parseSymLine (line : String) : SymLineResult :=
  match jsSplitComma line with
  | [a, b, c, d] =>
    match jsStringToBigInt a, jsStringToBigInt b, jsStringToBigInt c with
    | some i, some w, some comp => .entry ⟨i, w, comp, d⟩
    | _, _, _ => .fail
  | _ => .skip

/-- `iterateSymFile(symFilePath, onSignal)` as the ordered sequence of
`SignalInfo` records handed to the callback, one per conforming line; a
`BigInt` conversion failure aborts the whole iteration. -/
def iterateSymFile : List String → Except SymError (List SignalInfo)
  | [] => .ok []
  | l :: ls =>
    match parseSymLine l with
    | .skip => iterateSymFile ls
    | .fail => .error .convertError
    | .entry e => (iterateSymFile ls).map (fun es => e :: es)

/-- JS object property write `m[k] = v`: overwrites in place if the key exists,
appends otherwise. -/
def jsRecordSet : List (String × Int) → String → Int → List (String × Int)
  | [], k, v => [(k, v)]
  | (k0, v0) :: rest, k, v =>
    if k0 = k then (k0, v) :: rest else (k0, v0) :: jsRecordSet rest k v

/-- Body of the `iterateSymFile` callback in `checkWitnessOverrides`: entries
with a non-negative witness index are recorded in the map and deleted from the
missing set; others are ignored. -/
def overrideStep (acc : List (String × Int) × List String) (e : SignalInfo) :
    List (String × Int) × List String :=
  if 0 ≤ e.witnessIndex then
    (jsRecordSet acc.1 e.signalName e.witnessIndex,
     acc.2.filter (fun n => !(decide (n = e.signalName))))
  else acc

/-- `checkWitnessOverrides(symFilePath, overrides)`: streams the `.sym` file;
for each entry whose witness index is non-negative it records
`signalName -> witnessIndex` and deletes the name from the missing set (a JS
`Set`, here the ordered key list with all matching occurrences removed); if
names remain missing it throws the batched `Signals not found` error.
Overrides are a JS record: an association list whose keys are distinct,
non-integer-like strings, so `Object.keys` is the insertion-ordered key list. -/
def checkWitnessOverrides (lines : List String) (overrides : List (String × Int)) :
    Except SymError (List (String × Int)) :=
  match iterateSymFile lines with
  | .error e => .error e
  | .ok entries =>
    let res := entries.foldl overrideStep ([], overrides.map Prod.fst)
    if res.2 = [] then .ok res.1
    else .error (.signalsNotFound
      ("Signals not found in .sym file: " ++ String.intercalate ", " res.2))

/-- The entries a fully conforming symbol table yields: one per line with
exactly four comma-separated fields whose numeric fields convert. -/
def symEntriesOf (lines : List String) : List SignalInfo :=
  lines.filterMap (fun l =>
    match parseSymLine l with
    | .entry e => some e
    | _ => none)

/-! ## Witness override engine -/

/-- Lookup `signalIndexes[signal]` (`undefined` when absent). -/
def jsLookup (m : List (String × Int)) (k : String) : Option Int :=
  (m.find? (fun p => decide (p.1 = k))).map Prod.snd

/-- JS store `witness[index] = value` for an index that may be `undefined`
(`Number(undefined)` is `NaN`): a store at `NaN` or at a negative index leaves
the numeric entries untouched; an in-range store replaces the entry.  (A store
past the end would lengthen a JS array with holes; all uses below are
in-bounds, where `List.set` is exact.) -/
def jsArraySet (w : List Int) (idx : Option Int) (v : Int) : List Int :=
  match idx with
  | some i => if 0 ≤ i then w.set i.toNat v else w
  | none => w

/-- The stores performed by the loop of `modifyWitnessArray`: for each
`(signal, value)` pair of `overrides` in order, `witness[signalIndexes[signal]]
= value`. -/
def applyOverrides (witness : List Int) (signalIndexes : List (String × Int))
    (overrides : List (String × Int)) : List Int :=
  overrides.foldl (fun w p => jsArraySet w (jsLookup signalIndexes p.1) p.2) witness

/-- `modifyWitnessArray(witness, signalIndexes, overrides)` with the JS heap
made explicit: the first component is the content of the caller's array after
the call, the second is the returned array.  The source stores into the
argument array and returns that very object, so both components are the
applied-overrides content. -/
def modifyWitnessArray (witness : List Int) (signalIndexes : List (String × Int))
    (overrides : List (String × Int)) : List Int × List Int :=
  (applyOverrides witness signalIndexes overrides,
   applyOverrides witness signalIndexes overrides)

/-! ## Witness file paths and state (CircuitZKit) -/

/-- `getTmpDir()`: `path.join(os.tmpdir(), ".zkit")`, with `os.tmpdir()` an
environment parameter. -/
def getTmpDir (osTmpDir : String) : String := osTmpDir ++ "/.zkit"

/-- The original witness path `path.join(tmpDir, circuitName + ".wtns")`. -/
def wtnsFilePath (tmpDir circuitName : String) : String :=
  tmpDir ++ "/" ++ circuitName ++ ".wtns"

/-- The modified witness path
`path.join(tmpDir, circuitName + "_modified.wtns")`. -/
def modifiedWtnsFilePath (tmpDir circuitName : String) : String :=
  tmpDir ++ "/" ++ circuitName ++ "_modified.wtns"

/-- `CircuitZKit.getTemporaryWitnessPath()` of the current revision:
`path.join(getTmpDir(), circuitName + ".wtns")` (`tmpDir` already includes the
`.zkit` segment here). -/
def getTemporaryWitnessPath (tmpDir circuitName : String) : String :=
  tmpDir ++ "/" ++ circuitName ++ ".wtns"

/-- The file `CircuitZKit.modifyWitness` persists the modified witness to:
`writeWitnessFile(modifiedWtnsFile, witness, prime)` targets the
`_modified.wtns` path. -/
def modifyWitnessPersistPath (tmpDir circuitName : String) : String :=
  modifiedWtnsFilePath tmpDir circuitName

/-- A witness-file side effect of the proof-generation flow. -/
inductive FileEvent where
  | write (path : String)
  | remove (path : String)
  deriving DecidableEq, Repr

/-- Witness-file events of the current `CircuitZKit.generateProof(inputs,
witnessOverrides?)`, in order: `calculateWitness` has `snarkjs.wtns.calculate`
write the temporary witness file; when overrides are given the modified vector
is persisted with `writeWitnessFile(witnessFile, witness)` at that same path;
the `finally` block removes the file. -/
def generateProofWitnessFileEvents (tmpDir circuitName : String) (hasOverrides : Bool) :
    List FileEvent :=
  FileEvent.write (getTemporaryWitnessPath tmpDir circuitName) ::
    (if hasOverrides then [FileEvent.write (getTemporaryWitnessPath tmpDir circuitName)] else []) ++
    [FileEvent.remove (getTemporaryWitnessPath tmpDir circuitName)]

/-- `fs.existsSync` over an explicit directory state. -/
def existsSync (files : List (String × List Nat)) (p : String) : Bool :=
  files.any (fun e => decide (e.1 = p))

/-- `fs.rmSync` over an explicit directory state. -/
def rmSync (files : List (String × List Nat)) (p : String) : List (String × List Nat) :=
  files.filter (fun e => !(decide (e.1 = p)))

/-- `CircuitZKit.resetWitness()`: removes the modified witness file if it
exists, otherwise does nothing. -/
def resetWitness (files : List (String × List Nat)) (tmpDir circuitName : String) :
    List (String × List Nat) :=
  let modifiedWtnsFile := modifiedWtnsFilePath tmpDir circuitName
  if existsSync files modifiedWtnsFile then rmSync files modifiedWtnsFile else files

/-- `CircuitZKit.getWitnessFilePath(inputs?)`: prefers the modified witness
file, then the original, then calculates the witness from `inputs` (returning
the original path), and throws when neither a file nor inputs are available.
`fsExists` is the `fs.existsSync` probe for the current directory state. -/
def getWitnessFilePath (fsExists : String → Bool) (tmpDir circuitName : String)
    (inputs : Option (List (String × Int))) : Except String String :=
  let modifiedWitness := modifiedWtnsFilePath tmpDir circuitName
  let originalWitness := wtnsFilePath tmpDir circuitName
  if fsExists modifiedWitness then .ok modifiedWitness
  else if fsExists originalWitness then .ok originalWitness
  else
    match inputs with
    | none => .error "Witness file not found. Inputs are required to calculate witness."
    | some _ => .ok originalWitness

/-! ## Lemmas: little-endian encoding -/

theorem length_leBytes (n e : Nat) : (leBytes n e).length = n := by
  induction n generalizing e with
  | zero => rfl
  | succ n ih => simp [leBytes, ih]

theorem fromLEBytes_leBytes {n e : Nat} (h : e < 256 ^ n) :
    fromLEBytes (leBytes n e) = e := by
  induction n generalizing e with
  | zero => simp [pow_zero, Nat.lt_one_iff] at h; simp [leBytes, fromLEBytes, h]
  | succ n ih =>
    have hdiv : e / 256 < 256 ^ n := by
      rw [Nat.div_lt_iff_lt_mul (by norm_num : 0 < 256)]
      calc e < 256 ^ (n + 1) := h
        _ = 256 ^ n * 256 := by ring
    rw [leBytes, fromLEBytes, ih hdiv]
    omega

theorem readBytesPart_append {n : Nat} {l r : List Nat} (h : l.length = n) :
    readBytesPart n (l ++ r) = some (l, r) := by
  subst h
  simp [readBytesPart, List.take_left, List.drop_left]

theorem readULE_append {n : Nat} {l r : List Nat} (h : l.length = n) :
    readULE n (l ++ r) = some (fromLEBytes l, r) := by
  simp [readULE, readBytesPart_append h]

theorem readBytesPart_all {n : Nat} {l : List Nat} (h : l.length = n) :
    readBytesPart n l = some (l, []) := by
  have := readBytesPart_append (r := []) h
  simpa using this

theorem bitLenAux_lt {fuel n : Nat} (h : n ≤ fuel) : n < 2 ^ bitLenAux fuel n := by
  induction fuel generalizing n with
  | zero => interval_cases n; simp [bitLenAux]
  | succ fuel ih =>
    by_cases hn : n = 0
    · simp [bitLenAux, hn]
    · have hdiv : n / 2 ≤ fuel := by omega
      have := ih hdiv
      rw [bitLenAux, if_neg hn, pow_succ]
      omega

theorem lt_two_pow_bitLength (n : Nat) : n < 2 ^ bitLength n :=
  bitLenAux_lt le_rfl

theorem bitLength_le_eight_mul_witnessN8 (p : Nat) :
    bitLength p ≤ 8 * witnessN8 p := by
  unfold witnessN8
  have h1 := Nat.div_add_mod (bitLength p - 1) 64
  have h2 : (bitLength p - 1) % 64 < 64 := Nat.mod_lt _ (by norm_num)
  omega

theorem prime_lt_pow_witnessN8 (p : Nat) : p < 256 ^ witnessN8 p := by
  have h1 : p < 2 ^ bitLength p := lt_two_pow_bitLength p
  have h2 : (2 : Nat) ^ bitLength p ≤ 2 ^ (8 * witnessN8 p) :=
    Nat.pow_le_pow_right (by norm_num) (bitLength_le_eight_mul_witnessN8 p)
  have h3 : (256 : Nat) ^ witnessN8 p = 2 ^ (8 * witnessN8 p) := by
    rw [show (256 : Nat) = 2 ^ 8 by norm_num, ← pow_mul]
  omega

theorem length_flatMap_leBytes (n8 : Nat) (v : List Nat) :
    (v.flatMap (leBytes n8)).length = v.length * n8 := by
  induction v with
  | nil => simp
  | cons e v ih => simp [List.flatMap_cons, ih, length_leBytes]; ring

theorem decodeChunks_flatMap {n8 : Nat} {v : List Nat} (h : ∀ e ∈ v, e < 256 ^ n8) :
    decodeChunks n8 v.length (v.flatMap (leBytes n8)) = v := by
  induction v with
  | nil => rfl
  | cons e v ih =>
    have he : e < 256 ^ n8 := h e (by simp)
    have hlen : (leBytes n8 e).length = n8 := length_leBytes n8 e
    rw [List.length_cons, List.flatMap_cons, decodeChunks]
    rw [List.take_left' hlen, List.drop_left' hlen]
    rw [fromLEBytes_leBytes he, ih (fun x hx => h x (by simp [hx]))]

theorem wtnsMagic_length : wtnsMagic.length = 4 := rfl

/-- C2: for every witness vector of non-negative integers each strictly less
than the prime, writing the vector to a witness file and reading it back
yields exactly the same vector, same length and same elements in order (stated
with the machine-width bounds under which the 32-bit count field and the
32-bit `n8` field are not truncated). -/
theorem readVector_writeWitnessFile_roundTrip (prime : Nat) (v : List Nat)
    (hv : ∀ e ∈ v, e < prime)
    (hlen : v.length < 2 ^ 32) (hn8 : witnessN8 prime < 2 ^ 32) :
    readVector (writeWitnessFile v prime) = some v := by
  have h256 : (256 : Nat) ^ 4 = 2 ^ 32 := by norm_num
  have hprime : prime < 256 ^ witnessN8 prime := prime_lt_pow_witnessN8 prime
  have hve : ∀ e ∈ v, e < 256 ^ witnessN8 prime := fun e he =>
    lt_of_lt_of_le (hv e he) (le_of_lt hprime)
  have e1 : fromLEBytes (leBytes 4 2) = 2 := fromLEBytes_leBytes (by norm_num)
  have e2 : fromLEBytes (leBytes 4 1) = 1 := fromLEBytes_leBytes (by norm_num)
  have e3 : fromLEBytes (leBytes 4 (witnessN8 prime)) = witnessN8 prime :=
    fromLEBytes_leBytes (by omega)
  have e4 : fromLEBytes (leBytes 8 (8 + witnessN8 prime)) = 8 + witnessN8 prime :=
    fromLEBytes_leBytes (by
      have h8 : (256 : Nat) ^ 8 = 2 ^ 64 := by norm_num
      have h32 : (2 : Nat) ^ 32 < 2 ^ 64 := by norm_num
      omega)
  have e5 : fromLEBytes (leBytes 4 v.length) = v.length := fromLEBytes_leBytes (by omega)
  have e6 : fromLEBytes (leBytes 8 (v.length * witnessN8 prime)) = v.length * witnessN8 prime :=
    fromLEBytes_leBytes (by
      calc v.length * witnessN8 prime < 2 ^ 32 * 2 ^ 32 := Nat.mul_lt_mul'' hlen hn8
        _ = 2 ^ 64 := by norm_num
        _ = 256 ^ 8 := by norm_num)
  have hbytes : writeWitnessFile v prime =
      wtnsMagic ++ (leBytes 4 2 ++ (leBytes 4 2 ++ (leBytes 4 1 ++
        (leBytes 8 (8 + witnessN8 prime) ++ (leBytes 4 (witnessN8 prime) ++
        (leBytes (witnessN8 prime) prime ++ (leBytes 4 v.length ++
        (leBytes 4 2 ++ (leBytes 8 (v.length * witnessN8 prime) ++
        v.flatMap (leBytes (witnessN8 prime))))))))))) := by
    simp [writeWitnessFile, List.append_assoc]
  rw [hbytes]
  simp only [readVector, readBytesPart_append wtnsMagic_length,
    readULE_append (length_leBytes 4 2), readULE_append (length_leBytes 4 1),
    readULE_append (length_leBytes 8 (8 + witnessN8 prime)),
    readULE_append (length_leBytes 4 (witnessN8 prime)),
    readBytesPart_append (length_leBytes (witnessN8 prime) prime),
    readULE_append (length_leBytes 4 v.length),
    readULE_append (length_leBytes 8 (v.length * witnessN8 prime)),
    readBytesPart_all (length_flatMap_leBytes (witnessN8 prime) v),
    e1, e2, e3, e4, e5, e6, Option.some_bind, ne_eq, not_true_eq_false, if_false,
    lt_irrefl, ite_false, ite_true, not_false_eq_true, if_true]
  simp only [decodeChunks_flatMap hve]

/-- Witness for C2 at a concrete vector and prime. -/
theorem readVector_writeWitnessFile_roundTrip_witness :
    (∀ e ∈ [1, 2, 3], e < (7 : Nat)) ∧
      readVector (writeWitnessFile [1, 2, 3] 7) = some [1, 2, 3] :=
  ⟨by decide,
   readVector_writeWitnessFile_roundTrip 7 [1, 2, 3] (by decide) (by decide) (by decide)⟩

theorem getWitnessPrime_writeWitnessFile {prime : Nat} (w : List Nat)
    (hlen : w.length < 2 ^ 32) (hn8 : witnessN8 prime < 2 ^ 32) :
    getWitnessPrime (writeWitnessFile w prime) = some prime := by
  have h256 : (256 : Nat) ^ 4 = 2 ^ 32 := by norm_num
  have hprime : prime < 256 ^ witnessN8 prime := prime_lt_pow_witnessN8 prime
  have e1 : fromLEBytes (leBytes 4 2) = 2 := fromLEBytes_leBytes (by norm_num)
  have e2 : fromLEBytes (leBytes 4 1) = 1 := fromLEBytes_leBytes (by norm_num)
  have e3 : fromLEBytes (leBytes 4 (witnessN8 prime)) = witnessN8 prime :=
    fromLEBytes_leBytes (by omega)
  have e4 : fromLEBytes (leBytes 8 (8 + witnessN8 prime)) = 8 + witnessN8 prime :=
    fromLEBytes_leBytes (by
      have h8 : (256 : Nat) ^ 8 = 2 ^ 64 := by norm_num
      have h32 : (2 : Nat) ^ 32 < 2 ^ 64 := by norm_num
      omega)
  have e5 : fromLEBytes (leBytes 4 w.length) = w.length := fromLEBytes_leBytes (by omega)
  have e6 : fromLEBytes (leBytes 8 (w.length * witnessN8 prime)) = w.length * witnessN8 prime :=
    fromLEBytes_leBytes (by
      calc w.length * witnessN8 prime < 2 ^ 32 * 2 ^ 32 := Nat.mul_lt_mul'' hlen hn8
        _ = 2 ^ 64 := by norm_num
        _ = 256 ^ 8 := by norm_num)
  have e7 : fromLEBytes (leBytes (witnessN8 prime) prime) = prime :=
    fromLEBytes_leBytes hprime
  have hbytes : writeWitnessFile w prime =
      wtnsMagic ++ (leBytes 4 2 ++ (leBytes 4 2 ++ (leBytes 4 1 ++
        (leBytes 8 (8 + witnessN8 prime) ++ (leBytes 4 (witnessN8 prime) ++
        (leBytes (witnessN8 prime) prime ++ (leBytes 4 w.length ++
        (leBytes 4 2 ++ (leBytes 8 (w.length * witnessN8 prime) ++
        w.flatMap (leBytes (witnessN8 prime))))))))))) := by
    simp [writeWitnessFile, List.append_assoc]
  rw [hbytes]
  simp only [getWitnessPrime, readBytesPart_append wtnsMagic_length,
    readULE_append (length_leBytes 4 2), readULE_append (length_leBytes 4 1),
    readULE_append (length_leBytes 8 (8 + witnessN8 prime)),
    readULE_append (length_leBytes 4 (witnessN8 prime)),
    readBytesPart_append (length_leBytes (witnessN8 prime) prime),
    readULE_append (length_leBytes 4 w.length),
    readULE_append (length_leBytes 8 (w.length * witnessN8 prime)),
    readBytesPart_all (length_flatMap_leBytes (witnessN8 prime) w),
    e1, e2, e3, e4, e5, e6, e7, Option.some_bind, ne_eq, not_true_eq_false, if_false,
    lt_irrefl, ite_false, ite_true, not_false_eq_true, if_true]

/-- C10: the current `writeWitnessFile(path, witness)` takes no prime
parameter; it requires a valid witness file to already exist at the target
path (the call fails when none does), reads the prime from that file, and the
rewritten file's header carries exactly the prime the file had before the
call. -/
theorem writeWitnessFileCurrent_requires_and_preserves_prime :
    (∀ w, writeWitnessFileCurrent none w = none) ∧
    ∀ oldBytes w prime, getWitnessPrime oldBytes = some prime →
      witnessN8 prime < 2 ^ 32 → w.length < 2 ^ 32 →
      writeWitnessFileCurrent (some oldBytes) w = some (writeWitnessFile w prime) ∧
      getWitnessPrime (writeWitnessFile w prime) = some prime := by
  refine ⟨fun _ => rfl, fun oldBytes w prime hold hn8 hlen => ⟨?_, ?_⟩⟩
  · simp [writeWitnessFileCurrent, hold]
  · exact getWitnessPrime_writeWitnessFile w hlen hn8

/-- Witness for C10: rewriting a concrete valid witness file keeps its header
prime. -/
theorem writeWitnessFileCurrent_requires_and_preserves_prime_witness :
    getWitnessPrime (writeWitnessFile [1, 2, 3] 7) = some 7 ∧
      writeWitnessFileCurrent (some (writeWitnessFile [1, 2, 3] 7)) [4, 5] =
        some (writeWitnessFile [4, 5] 7) :=
  ⟨by decide,
   (writeWitnessFileCurrent_requires_and_preserves_prime.2
      (writeWitnessFile [1, 2, 3] 7) [4, 5] 7 (by decide) (by decide) (by decide)).1⟩

/-! ## Lemmas: symbol-table streaming and override validation -/

theorem overrideFold_snd (entries : List SignalInfo) :
    ∀ (m : List (String × Int)) (miss : List String),
      (entries.foldl overrideStep (m, miss)).2 =
        miss.filter (fun n =>
          !(entries.any (fun e => decide (0 ≤ e.witnessIndex) && decide (e.signalName = n)))) := by
  induction entries with
  | nil => intro m miss; simp
  | cons e es ih =>
    intro m miss
    rw [List.foldl_cons]
    by_cases hwi : 0 ≤ e.witnessIndex
    · rw [show overrideStep (m, miss) e =
          (jsRecordSet m e.signalName e.witnessIndex,
           miss.filter (fun n => !(decide (n = e.signalName)))) by
        simp [overrideStep, hwi]]
      rw [ih]
      rw [List.filter_filter]
      apply List.filter_congr
      intro n _
      simp [List.any_cons, hwi, eq_comm, Bool.and_comm]
    · rw [show overrideStep (m, miss) e = (m, miss) by simp [overrideStep, hwi]]
      rw [ih]
      apply List.filter_congr
      intro n _
      simp [List.any_cons, hwi]

theorem iterateSymFile_append (a b : List String) :
    iterateSymFile (a ++ b) =
      (iterateSymFile a).bind (fun ea => (iterateSymFile b).map (fun eb => ea ++ eb)) := by
  induction a with
  | nil =>
    cases h : iterateSymFile b <;> simp [iterateSymFile, h, Except.bind, Except.map]
  | cons l ls ih =>
    rw [List.cons_append]
    show (match parseSymLine l with
      | .skip => iterateSymFile (ls ++ b)
      | .fail => .error .convertError
      | .entry e => (iterateSymFile (ls ++ b)).map (fun es => e :: es)) = _
    cases hp : parseSymLine l with
    | skip => simp only [iterateSymFile, hp, ih]
    | fail => simp only [iterateSymFile, hp, Except.bind]
    | entry e =>
      simp only [iterateSymFile, hp, ih]
      cases h1 : iterateSymFile ls <;> cases h2 : iterateSymFile b <;>
        simp [Except.bind, Except.map]

theorem parseSymLine_skip_of_fields {l : String} (h : (jsSplitComma l).length ≠ 4) :
    parseSymLine l = .skip := by
  unfold parseSymLine
  rcases hs : jsSplitComma l with _ | ⟨a, _ | ⟨b, _ | ⟨c, _ | ⟨d, _ | ⟨x, tail⟩⟩⟩⟩⟩ <;>
    simp [hs] at h ⊢

/-- C1: when the override set contains names that are not resolvable from the
symbol table (no streamed entry with a non-negative witness index has that
name), resolution fails with a single `SignalsNotFound` error whose message
lists every unresolved name, comma-separated, in the order the names were
supplied — never only the first missing name. -/
theorem checkWitnessOverrides_batched_error (lines : List String)
    (overrides : List (String × Int)) (entries : List SignalInfo)
    (hiter : iterateSymFile lines = .ok entries)
    (hmiss : (overrides.map Prod.fst).filter
        (fun n => !(entries.any (fun e =>
          decide (0 ≤ e.witnessIndex) && decide (e.signalName = n)))) ≠ []) :
    checkWitnessOverrides lines overrides = .error (.signalsNotFound
      ("Signals not found in .sym file: " ++ String.intercalate ", "
        ((overrides.map Prod.fst).filter
          (fun n => !(entries.any (fun e =>
            decide (0 ≤ e.witnessIndex) && decide (e.signalName = n))))))) := by
  simp only [checkWitnessOverrides, hiter, overrideFold_snd]
  rw [if_neg hmiss]

/-- Witness for C1: three override keys, two of them missing, reported in one
error in supplied order. -/
theorem checkWitnessOverrides_batched_error_witness :
    checkWitnessOverrides ["0,1,0,main.out", "2,2,0,main.a"]
        [("main.a", 10), ("main.output", 10), ("main.c", 10)] =
      .error (.signalsNotFound "Signals not found in .sym file: main.output, main.c") := by
  have h := checkWitnessOverrides_batched_error ["0,1,0,main.out", "2,2,0,main.a"]
    [("main.a", 10), ("main.output", 10), ("main.c", 10)]
    [⟨0, 1, 0, "main.out"⟩, ⟨2, 2, 0, "main.a"⟩] rfl (by decide)
  exact h.trans (by rfl)

/-- C5: a symbol-table line whose entry carries a negative witness index is
invisible to override resolution — inserting it anywhere in the file changes
neither the produced signal-to-index map nor the missing-name error, so such
a name is reported exactly like a name absent from the table entirely. -/
theorem checkWitnessOverrides_negative_index_invisible (pre post : List String) (l : String)
    (e : SignalInfo) (overrides : List (String × Int))
    (hparse : parseSymLine l = .entry e) (hneg : e.witnessIndex < 0) :
    checkWitnessOverrides (pre ++ l :: post) overrides =
      checkWitnessOverrides (pre ++ post) overrides := by
  have hl : iterateSymFile (l :: post) = (iterateSymFile post).map (fun es => e :: es) := by
    simp only [iterateSymFile, hparse]
  unfold checkWitnessOverrides
  rw [iterateSymFile_append, iterateSymFile_append, hl]
  cases hpre : iterateSymFile pre with
  | error err => simp [Except.bind]
  | ok epre =>
    cases hpost : iterateSymFile post with
    | error err => simp [Except.bind, Except.map]
    | ok epost =>
      simp only [Except.bind, Except.map]
      have hstep : ∀ acc : List (String × Int) × List String, overrideStep acc e = acc := by
        intro acc
        unfold overrideStep
        rw [if_neg (by omega)]
      have hfold : ∀ init : List (String × Int) × List String,
          List.foldl overrideStep init (epre ++ e :: epost) =
          List.foldl overrideStep init (epre ++ epost) := by
        intro init
        rw [List.foldl_append, List.foldl_append, List.foldl_cons, hstep]
      rw [hfold]

/-- Witness for C5: requesting an optimized-away signal (index `-1`) behaves
exactly as if its line were not in the symbol table. -/
theorem checkWitnessOverrides_negative_index_invisible_witness :
    checkWitnessOverrides ["0,1,0,main.out", "2,-1,0,main.opt"] [("main.opt", 5)] =
      checkWitnessOverrides ["0,1,0,main.out"] [("main.opt", 5)] :=
  checkWitnessOverrides_negative_index_invisible ["0,1,0,main.out"] []
    "2,-1,0,main.opt" ⟨2, -1, 0, "main.opt"⟩ [("main.opt", 5)] rfl (by decide)

/-- C9 (amended): the symbol-table reader yields exactly one entry per input
line with exactly four comma-separated fields *whose numeric fields convert*,
and lines with a different field count are skipped silently; but a four-field
line with a non-convertible numeric field raises a conversion error rather
than being skipped or producing an entry. -/
theorem iterateSymFile_entry_characterization :
    (∀ lines : List String, (∀ l ∈ lines, parseSymLine l ≠ .fail) →
        iterateSymFile lines = .ok (symEntriesOf lines)) ∧
    (∀ (pre post : List String) (l : String), (jsSplitComma l).length ≠ 4 →
        iterateSymFile (pre ++ l :: post) = iterateSymFile (pre ++ post)) := by
  constructor
  · intro lines h
    induction lines with
    | nil => rfl
    | cons l ls ih =>
      have hl := h l (List.mem_cons_self l ls)
      have hrest : ∀ x ∈ ls, parseSymLine x ≠ .fail := fun x hx => h x (List.mem_cons_of_mem l hx)
      cases hp : parseSymLine l with
      | skip => simp only [iterateSymFile, hp, ih hrest, symEntriesOf, List.filterMap_cons]
      | fail => exact absurd hp hl
      | entry e =>
        simp only [iterateSymFile, hp, ih hrest, symEntriesOf, List.filterMap_cons, Except.map]
  · intro pre post l hfour
    have hskip : parseSymLine l = .skip := parseSymLine_skip_of_fields hfour
    have hl : iterateSymFile (l :: post) = iterateSymFile post := by
      simp only [iterateSymFile, hskip]
    rw [iterateSymFile_append, iterateSymFile_append, hl]

/-- Witness for C9 (amended): a conforming line, a short line, and a
negative-index line stream to exactly the per-line entries. -/
theorem iterateSymFile_entry_characterization_witness :
    iterateSymFile ["0,1,0,main.out", "garbage", "2,-3,0,main.opt"] =
      .ok (symEntriesOf ["0,1,0,main.out", "garbage", "2,-3,0,main.opt"]) :=
  iterateSymFile_entry_characterization.1 ["0,1,0,main.out", "garbage", "2,-3,0,main.opt"]
    (by decide)

/-- Counterexample for C9 as stated: the line `"a,b,c,d"` splits into exactly
four fields, yet the reader raises a conversion error instead of producing a
signal entry. -/
theorem iterateSymFile_four_field_error_cex :
    (jsSplitComma "a,b,c,d").length = 4 ∧
      iterateSymFile ["a,b,c,d"] = .error .convertError :=
  ⟨rfl, rfl⟩

/-! ## Lemmas: witness override engine -/
theorem jsArraySet_length (w : List Int) (idx : Option Int) (v : Int) :
    (jsArraySet w idx v).length = w.length := by
  cases idx with
  | none => rfl
  | some i =>
    unfold jsArraySet
    by_cases h : 0 ≤ i <;> simp [h]

theorem applyOverrides_length (si : List (String × Int)) (ov : List (String × Int)) :
    ∀ w : List Int, (applyOverrides w si ov).length = w.length := by
  induction ov with
  | nil => intro w; rfl
  | cons q ov ih =>
    intro w
    show (applyOverrides (jsArraySet w (jsLookup si q.1) q.2) si ov).length = _
    rw [ih, jsArraySet_length]

theorem applyOverrides_getElem?_frame (si : List (String × Int)) (ov : List (String × Int))
    (j : Nat) :
    ∀ w : List Int,
      (∀ p ∈ ov, ∀ i : Int, jsLookup si p.1 = some i → 0 ≤ i → i.toNat ≠ j) →
      (applyOverrides w si ov)[j]? = w[j]? := by
  induction ov with
  | nil => intro w _; rfl
  | cons q ov ih =>
    intro w h
    show (applyOverrides (jsArraySet w (jsLookup si q.1) q.2) si ov)[j]? = _
    rw [ih _ (fun p hp => h p (List.mem_cons_of_mem q hp))]
    cases hq : jsLookup si q.1 with
    | none => rfl
    | some i =>
      show (if 0 ≤ i then w.set i.toNat q.2 else w)[j]? = w[j]?
      by_cases hi : 0 ≤ i
      · rw [if_pos hi, List.getElem?_set]
        rw [if_neg (h q (List.mem_cons_self q ov) i hq hi)]
      · rw [if_neg hi]

theorem applyOverrides_getElem?_target (si : List (String × Int)) (ov : List (String × Int)) :
    ∀ w : List Int,
      (∀ p ∈ ov, ∃ i : Int, jsLookup si p.1 = some i ∧ 0 ≤ i ∧ i.toNat < w.length) →
      ov.Pairwise (fun p q => jsLookup si p.1 ≠ jsLookup si q.1) →
      ∀ p ∈ ov, ∀ i : Int, jsLookup si p.1 = some i →
        (applyOverrides w si ov)[i.toNat]? = some p.2 := by
  induction ov with
  | nil => intro w _ _ p hp; exact absurd hp (List.not_mem_nil p)
  | cons q ov ih =>
    intro w hres hdist p hp i hlook
    obtain ⟨iq, hiq, hiq0, hiqlt⟩ := hres q (List.mem_cons_self q ov)
    show (applyOverrides (jsArraySet w (jsLookup si q.1) q.2) si ov)[i.toNat]? = some p.2
    rcases List.mem_cons.mp hp with heq | hp'
    · subst heq
      have hieq : i = iq := by
        rw [hlook] at hiq
        exact Option.some.inj hiq
      subst hieq
      have hframe : ∀ r ∈ ov, ∀ j : Int, jsLookup si r.1 = some j → 0 ≤ j →
          j.toNat ≠ i.toNat := by
        intro r hr j hlr hj0 habs
        have hne : jsLookup si p.1 ≠ jsLookup si r.1 := (List.pairwise_cons.mp hdist).1 r hr
        apply hne
        rw [hlook, hlr]
        have : j = i := by omega
        rw [this]
      rw [applyOverrides_getElem?_frame si ov i.toNat _ hframe]
      rw [show jsArraySet w (jsLookup si p.1) p.2 = w.set i.toNat p.2 by
        rw [hlook]
        show (if 0 ≤ i then w.set i.toNat p.2 else w) = w.set i.toNat p.2
        rw [if_pos hiq0]]
      rw [List.getElem?_set, if_pos rfl, if_pos hiqlt]
    · apply ih (jsArraySet w (jsLookup si q.1) q.2) ?_ (List.pairwise_cons.mp hdist).2 p hp' i hlook
      intro r hr
      obtain ⟨j, hlr, hj0, hjlt⟩ := hres r (List.mem_cons_of_mem q hr)
      exact ⟨j, hlr, hj0, by rw [jsArraySet_length]; exact hjlt⟩

/-- C3 (amended): for every witness vector and override set whose names all
resolve to in-bounds, pairwise-distinct indices, `modifyWitnessArray` stores
into the caller's array in place and returns that very array — not a copy: the
post-call content of the input equals the returned vector, which has the
input's length, carries each override's value at its resolved position, and is
unchanged at every untargeted position. -/
theorem modifyWitnessArray_in_place (w : List Int) (si ov : List (String × Int))
    (hres : ∀ p ∈ ov, ∃ i : Int, jsLookup si p.1 = some i ∧ 0 ≤ i ∧ i.toNat < w.length)
    (hdist : ov.Pairwise (fun p q => jsLookup si p.1 ≠ jsLookup si q.1)) :
    (modifyWitnessArray w si ov).1 = (modifyWitnessArray w si ov).2 ∧
    (modifyWitnessArray w si ov).2.length = w.length ∧
    (∀ j : Nat, (∀ p ∈ ov, ∀ i : Int, jsLookup si p.1 = some i → i.toNat ≠ j) →
        (modifyWitnessArray w si ov).2[j]? = w[j]?) ∧
    (∀ p ∈ ov, ∀ i : Int, jsLookup si p.1 = some i →
        (modifyWitnessArray w si ov).2[i.toNat]? = some p.2) := by
  refine ⟨rfl, applyOverrides_length si ov w, ?_, ?_⟩
  · intro j hj
    exact applyOverrides_getElem?_frame si ov j w
      (fun p hp i hli _ => hj p hp i hli)
  · exact applyOverrides_getElem?_target si ov w hres hdist

/-- Witness for C3 (amended): one resolvable override on a concrete vector. -/
theorem modifyWitnessArray_in_place_witness :
    (modifyWitnessArray [1, 200, 20, 10] [("main.a", 2)] [("main.a", 10)]).1 =
      (modifyWitnessArray [1, 200, 20, 10] [("main.a", 2)] [("main.a", 10)]).2 ∧
    (modifyWitnessArray [1, 200, 20, 10] [("main.a", 2)] [("main.a", 10)]).2[2]? = some 10 := by
  have h := modifyWitnessArray_in_place [1, 200, 20, 10] [("main.a", 2)] [("main.a", 10)]
    (by
      intro p hp
      rw [List.mem_singleton] at hp
      subst hp
      exact ⟨2, rfl, by decide, by decide⟩)
    (List.pairwise_singleton _ _)
  exact ⟨h.1, h.2.2.2 ("main.a", 10) (List.mem_singleton.mpr rfl) 2 rfl⟩

/-- Counterexample for C3 as stated: after applying a resolvable override the
caller's input array no longer holds its original content — the operation
mutates in place rather than returning a copy. -/
theorem modifyWitnessArray_not_pure_cex :
    (modifyWitnessArray [1, 200, 20, 10] [("main.a", 2)] [("main.a", 5)]).1 ≠
      [1, 200, 20, 10] := by decide

/-- C8: for every base witness vector and two distinct resolvable signal
names `A ≠ B` with values `x` and `y`, applying the override `{A: x}` and then
`{B: y}` returns the same witness vector as applying `{A: x, B: y}` in a
single call. -/
theorem modifyWitnessArray_sequential_eq_batch (w : List Int) (si : List (String × Int))
    (A B : String) (x y : Int) (hAB : A ≠ B)
    (hA : (jsLookup si A).isSome) (hB : (jsLookup si B).isSome) :
    (modifyWitnessArray (modifyWitnessArray w si [(A, x)]).2 si [(B, y)]).2 =
      (modifyWitnessArray w si [(A, x), (B, y)]).2 := rfl

/-- Witness for C8 on the Multiplier witness `[1, 200, 20, 10]`. -/
theorem modifyWitnessArray_sequential_eq_batch_witness :
    (modifyWitnessArray (modifyWitnessArray [1, 200, 20, 10]
        [("main.a", 2), ("main.b", 3)] [("main.a", 10)]).2
        [("main.a", 2), ("main.b", 3)] [("main.b", 5)]).2 =
      (modifyWitnessArray [1, 200, 20, 10] [("main.a", 2), ("main.b", 3)]
        [("main.a", 10), ("main.b", 5)]).2 :=
  modifyWitnessArray_sequential_eq_batch [1, 200, 20, 10] [("main.a", 2), ("main.b", 3)]
    "main.a" "main.b" 10 5 (by decide) (by decide) (by decide)

/-! ## Lemmas: witness file paths and state -/
theorem modifiedWtnsFilePath_ne_wtnsFilePath (tmpDir circuitName : String) :
    modifiedWtnsFilePath tmpDir circuitName ≠ wtnsFilePath tmpDir circuitName := by
  intro h
  have hlen := congrArg String.length h
  have h14 : "_modified.wtns".length = 14 := rfl
  have h5 : ".wtns".length = 5 := rfl
  simp only [modifiedWtnsFilePath, wtnsFilePath, String.length_append, h14, h5] at hlen
  omega

theorem existsSync_rmSync_self (files : List (String × List Nat)) (p : String) :
    existsSync (rmSync files p) p = false := by
  simp only [existsSync, rmSync, List.any_eq_true, List.mem_filter]
  simp

theorem existsSync_rmSync_ne (files : List (String × List Nat)) {p q : String} (h : q ≠ p) :
    existsSync (rmSync files p) q = existsSync files q := by
  induction files with
  | nil => rfl
  | cons e fs ih =>
    obtain ⟨k, cont⟩ := e
    by_cases hep : k = p
    · rw [show rmSync ((k, cont) :: fs) p = rmSync fs p by
        simp [rmSync, List.filter_cons, hep]]
      rw [ih]
      have : decide (k = q) = false := by simp [hep, Ne.symm h]
      simp [existsSync, List.any_cons, this]
    · rw [show rmSync ((k, cont) :: fs) p = (k, cont) :: rmSync fs p by
        simp [rmSync, List.filter_cons, hep]]
      simp only [existsSync, List.any_cons] at ih ⊢
      rw [ih]

theorem lookup_rmSync (files : List (String × List Nat)) {p q : String} (h : q ≠ p) :
    List.lookup q (rmSync files p) = List.lookup q files := by
  induction files with
  | nil => rfl
  | cons e fs ih =>
    obtain ⟨k, cont⟩ := e
    by_cases hep : k = p
    · rw [show rmSync ((k, cont) :: fs) p = rmSync fs p by
        simp [rmSync, List.filter_cons, hep]]
      have hb : (q == k) = false := by simp [hep, h]
      simp [ih, List.lookup, hb]
    · rw [show rmSync ((k, cont) :: fs) p = (k, cont) :: rmSync fs p by
        simp [rmSync, List.filter_cons, hep]]
      by_cases heq : q = k
      · simp [List.lookup, heq]
      · have hb : (q == k) = false := by simp [heq]
        simp [List.lookup, hb, ih]

/-- C6: querying the current witness path returns the modified witness
file's path whenever that file exists, otherwise the original witness file's
path when it exists; when neither file exists and no inputs are supplied the
query fails with a `WitnessNotFound` error telling the caller that inputs are
required. -/
theorem getWitnessFilePath_state (fsExists : String → Bool) (tmpDir circuitName : String)
    (inputs : Option (List (String × Int))) :
    (fsExists (modifiedWtnsFilePath tmpDir circuitName) = true →
        getWitnessFilePath fsExists tmpDir circuitName inputs =
          .ok (modifiedWtnsFilePath tmpDir circuitName)) ∧
    (fsExists (modifiedWtnsFilePath tmpDir circuitName) = false →
      fsExists (wtnsFilePath tmpDir circuitName) = true →
        getWitnessFilePath fsExists tmpDir circuitName inputs =
          .ok (wtnsFilePath tmpDir circuitName)) ∧
    (fsExists (modifiedWtnsFilePath tmpDir circuitName) = false →
      fsExists (wtnsFilePath tmpDir circuitName) = false → inputs = none →
        getWitnessFilePath fsExists tmpDir circuitName inputs =
          .error "Witness file not found. Inputs are required to calculate witness.") := by
  refine ⟨fun hm => ?_, fun hm ho => ?_, fun hm ho hi => ?_⟩
  · simp [getWitnessFilePath, hm]
  · simp [getWitnessFilePath, hm, ho]
  · subst hi
    simp [getWitnessFilePath, hm, ho]

/-- Witness for C6: empty directory and no inputs. -/
theorem getWitnessFilePath_state_witness :
    getWitnessFilePath (fun _ => false) "/tmp/.zkit" "Multiplier" none =
      .error "Witness file not found. Inputs are required to calculate witness." :=
  (getWitnessFilePath_state (fun _ => false) "/tmp/.zkit" "Multiplier" none).2.2 rfl rfl rfl

/-- C7: resetting the witness deletes the modified witness file (leaving
every other file untouched) so that the original witness is current again for
the path query; resetting when no modified witness file exists is a no-op that
changes nothing on disk. -/
theorem resetWitness_spec (files : List (String × List Nat)) (tmpDir circuitName : String) :
    existsSync (resetWitness files tmpDir circuitName)
        (modifiedWtnsFilePath tmpDir circuitName) = false ∧
    (∀ q, q ≠ modifiedWtnsFilePath tmpDir circuitName →
        List.lookup q (resetWitness files tmpDir circuitName) = List.lookup q files) ∧
    (existsSync files (modifiedWtnsFilePath tmpDir circuitName) = false →
        resetWitness files tmpDir circuitName = files) ∧
    (existsSync files (wtnsFilePath tmpDir circuitName) = true → ∀ inputs,
        getWitnessFilePath (existsSync (resetWitness files tmpDir circuitName))
          tmpDir circuitName inputs = .ok (wtnsFilePath tmpDir circuitName)) := by
  have hne := modifiedWtnsFilePath_ne_wtnsFilePath tmpDir circuitName
  refine ⟨?_, ?_, ?_, ?_⟩
  · unfold resetWitness
    by_cases hex : existsSync files (modifiedWtnsFilePath tmpDir circuitName) = true
    · rw [if_pos hex]
      exact existsSync_rmSync_self files _
    · rw [if_neg hex]
      exact Bool.eq_false_iff.mpr hex
  · intro q hq
    unfold resetWitness
    by_cases hex : existsSync files (modifiedWtnsFilePath tmpDir circuitName) = true
    · rw [if_pos hex]
      exact lookup_rmSync files hq
    · rw [if_neg hex]
  · intro hex
    unfold resetWitness
    rw [if_neg (by rw [hex]; exact Bool.false_ne_true)]
  · intro horig inputs
    have hm : existsSync (resetWitness files tmpDir circuitName)
        (modifiedWtnsFilePath tmpDir circuitName) = false := by
      unfold resetWitness
      by_cases hex : existsSync files (modifiedWtnsFilePath tmpDir circuitName) = true
      · rw [if_pos hex]; exact existsSync_rmSync_self files _
      · rw [if_neg hex]; exact Bool.eq_false_iff.mpr hex
    have ho : existsSync (resetWitness files tmpDir circuitName)
        (wtnsFilePath tmpDir circuitName) = true := by
      unfold resetWitness
      by_cases hex : existsSync files (modifiedWtnsFilePath tmpDir circuitName) = true
      · rw [if_pos hex, existsSync_rmSync_ne files (Ne.symm hne)]
        exact horig
      · rw [if_neg hex]; exact horig
    exact (getWitnessFilePath_state _ tmpDir circuitName inputs).2.1 hm ho

/-- Witness for C7: a no-op reset on a directory without a modified file, and
content preservation of the original next to a deleted modified file. -/
theorem resetWitness_spec_witness :
    resetWitness [("/tmp/.zkit/Multiplier.wtns", [1, 2])] "/tmp/.zkit" "Multiplier" =
        [("/tmp/.zkit/Multiplier.wtns", [1, 2])] ∧
      List.lookup "/tmp/.zkit/Multiplier.wtns"
          (resetWitness [("/tmp/.zkit/Multiplier.wtns", [1, 2]),
            ("/tmp/.zkit/Multiplier_modified.wtns", [3, 4])] "/tmp/.zkit" "Multiplier") =
        some [1, 2] :=
  ⟨(resetWitness_spec [("/tmp/.zkit/Multiplier.wtns", [1, 2])] "/tmp/.zkit" "Multiplier").2.2.1
      (by decide),
   ((resetWitness_spec [("/tmp/.zkit/Multiplier.wtns", [1, 2]),
        ("/tmp/.zkit/Multiplier_modified.wtns", [3, 4])] "/tmp/.zkit" "Multiplier").2.1
      "/tmp/.zkit/Multiplier.wtns" (by decide)).trans (by rfl)⟩

/-- C4 (amended): `CircuitZKit.modifyWitness` persists the modified witness
to a separate `_modified.wtns` file, never the original witness path; but the
current `generateProof` flow with overrides writes the modified witness over
the same temporary witness file that holds the original witness (which is
deleted after proving). -/
theorem witness_persist_paths :
    (∀ tmpDir circuitName : String,
        modifyWitnessPersistPath tmpDir circuitName ≠ wtnsFilePath tmpDir circuitName) ∧
    (∀ tmpDir circuitName : String,
        (generateProofWitnessFileEvents tmpDir circuitName true)[1]? =
          some (FileEvent.write (getTemporaryWitnessPath tmpDir circuitName)) ∧
        getTemporaryWitnessPath tmpDir circuitName = wtnsFilePath tmpDir circuitName) :=
  ⟨fun tmpDir circuitName => modifiedWtnsFilePath_ne_wtnsFilePath tmpDir circuitName,
   fun _ _ => ⟨rfl, rfl⟩⟩

/-- Counterexample for C4 as stated: in the current `generateProof` with
overrides, the write that persists the modified witness targets exactly the
path where the original witness was just calculated — the original witness
file is overwritten. -/
theorem generateProof_overwrites_original_cex :
    (generateProofWitnessFileEvents (getTmpDir "/tmp") "Multiplier" true)[0]? =
        some (FileEvent.write (wtnsFilePath (getTmpDir "/tmp") "Multiplier")) ∧
      (generateProofWitnessFileEvents (getTmpDir "/tmp") "Multiplier" true)[1]? =
        some (FileEvent.write (wtnsFilePath (getTmpDir "/tmp") "Multiplier")) :=
  ⟨rfl, rfl⟩
